import Mathlib

/-!
Shallow embedding of `src/playlist_generator.py`.

The Spotify client `sp` is an external collaborator; it is modelled by a
`Catalog` structure mapping each request (identifier plus the page size the
code passes in the initial call) to the stream of result pages that the
collaborator will serve, one page per `sp.next` call chain.  The process-wide
random source used by `random.shuffle` is modelled by an injected function
`sh : List Track → List Track`; the theorems that depend on shuffling assume
`∀ l, (sh l).Perm l`, which is what `random.shuffle` guarantees.

Python `int` parameters are embedded as `Int` where a claim speaks about
non-positive values (`target_size`) and as `Nat` for the pagination quotas
(`limit`, `albums_per_artist`, `tracks_per_album`), which are counts.
-/

/-- Python `str.lower()` (character-wise lowercasing). -/
def pyLower (s : String) : String := s.map Char.toLower

/-- Python `str.strip()`: remove surrounding whitespace. -/
def pyStrip (s : String) : String := s.trim

/-- Python list slicing `l[:k]` for an `int` bound `k`: a nonnegative bound
keeps the first `k` elements, a negative bound drops `-k` elements from the
end (empty result when `len(l) + k ≤ 0`). -/
def pySliceTo (k : Int) (l : List α) : List α :=
  if 0 ≤ k then l.take k.toNat else l.take ((l.length : Int) + k).toNat

/-- The `Track` dataclass of the source (lines 7-12). -/
structure Track where
  id : String
  name : String
  artist : String
  spotify_url : String
deriving DecidableEq, Repr

/-- The normalized dedup key `(tr.name.lower().strip(), tr.artist.lower().strip())`
computed at lines 123 and 151 of the source. -/
def nameKey (tr : Track) : String × String :=
  (pyStrip (pyLower tr.name), pyStrip (pyLower tr.artist))

/-- One item of an `artist_albums` page: `item.get("id")` and the ids
`a.get("id")` of `item.get("artists", [])` (absent fields are `none`). -/
structure AlbumItem where
  id : Option String
  artistIds : List (Option String)
deriving DecidableEq, Repr

/-- One `artist_albums` response page: its `items` and the truthiness of its
`next` cursor. -/
structure AlbumsPage where
  items : List AlbumItem
  hasNext : Bool
deriving DecidableEq, Repr

/-- One entry of `t.get("artists", [])` on an `album_tracks` item. -/
structure TrackArtist where
  id : Option String
  name : Option String
deriving DecidableEq, Repr

/-- One item of an `album_tracks` page: `t.get("id")`, `t.get("name")`,
`t.get("artists", [])` and `t.get("external_urls", {}).get("spotify")`. -/
structure TrackItem where
  id : Option String
  name : Option String
  artists : List TrackArtist
  spotifyUrl : Option String
deriving DecidableEq, Repr

/-- One `album_tracks` response page. -/
structure TracksPage where
  items : List TrackItem
  hasNext : Bool
deriving DecidableEq, Repr

/-- The external Spotify collaborator: for each artist id and requested page
size, the page stream served for `sp.artist_albums` plus the `sp.next` chain;
likewise for `sp.album_tracks`. -/
structure Catalog where
  artistAlbums : String → Nat → List AlbumsPage
  albumTracks : String → Nat → List TracksPage

/-! ## `get_artist_albums` (source lines 15-45) -/

/-- The `for item in results.get("items", [])` loop body of
`get_artist_albums` (lines 32-41): skip items whose artist list misses
`artist_id`, skip falsy or already seen album ids, append fresh ids and break
once `limit` ids have been collected.  Returns the updated `album_ids` and
`seen`. -/
def acceptAlbums (aid : String) (limit : Nat) :
    List AlbumItem → List String → Finset String → List String × Finset String
  | [], acc, seen => (acc, seen)
  | item :: rest, acc, seen =>
    if aid ∈ item.artistIds.filterMap (fun x => x) then
      match item.id with
      | some s =>
        if s ≠ "" ∧ s ∉ seen then
          let acc2 := acc ++ [s]
          let seen2 := insert s seen
          if limit ≤ acc2.length then (acc2, seen2)
          else acceptAlbums aid limit rest acc2 seen2
        else acceptAlbums aid limit rest acc seen
      | none => acceptAlbums aid limit rest acc seen
    else acceptAlbums aid limit rest acc seen

/-- Result of running the `get_artist_albums` pagination loop: the collected
album ids together with the trace of page requests issued to the catalog.
Each trace entry is `(page-size parameter of the request, number of album ids
collected when the request was issued)`; the `sp.next(results)` calls of line
43 carry no page-size parameter, recorded as `none`. -/
structure AlbumsFetch where
  ids : List String
  requests : List (Option Nat × Nat)
deriving DecidableEq, Repr

/-- The `while results and len(album_ids) < limit` loop of
`get_artist_albums` (lines 31-43) over the stream of pages served by the
collaborator, recording every `sp.next` request issued. -/
def albumsFetchGo (aid : String) (limit : Nat) :
    List AlbumsPage → List String → Finset String → AlbumsFetch
  | [], acc, _ => ⟨acc, []⟩
  | p :: rest, acc, seen =>
    let r := acceptAlbums aid limit p.items acc seen
    if p.hasNext ∧ r.1.length < limit then
      let f := albumsFetchGo aid limit rest r.1 r.2
      ⟨f.ids, (none, r.1.length) :: f.requests⟩
    else ⟨r.1, []⟩

/-- `get_artist_albums` together with its request trace.  The initial
`sp.artist_albums(..., limit=min(10, limit), offset=0)` call (lines 23-29) is
issued unconditionally with page-size parameter `min 10 limit` and zero ids
collected; the loop then runs while pages remain and fewer than `limit` ids
were accepted. -/
def albumsFetch (cat : Catalog) (artist_id : String) (limit : Nat) : AlbumsFetch :=
  let pages := cat.artistAlbums artist_id (min 10 limit)
  let f := if 0 < limit then albumsFetchGo artist_id limit pages [] ∅ else ⟨[], []⟩
  ⟨f.ids, (some (min 10 limit), 0) :: f.requests⟩

/-- `get_artist_albums(sp, artist_id, limit)`: the list of album ids it
returns. -/
def get_artist_albums (cat : Catalog) (artist_id : String) (limit : Nat) : List String :=
  (albumsFetch cat artist_id limit).ids

/-! ## `get_album_tracks` (source lines 48-82) -/

/-- `{a.get("id") for a in t.get("artists", []) if a.get("id")}`: the set of
truthy credited-artist ids of a track item (line 68). -/
def trackArtistIds (t : TrackItem) : Finset String :=
  (t.artists.filterMap (fun a =>
    match a.id with
    | some s => if s = "" then none else some s
    | none => none)).toFinset

/-- Whether an item survives the filters of the `get_album_tracks` loop body
(lines 64-73): it must have a truthy track id; when `allowed_artist_ids` is
supplied its artist-id set must not be disjoint from it, and under
`solo_only` it must moreover be exactly equal to it. -/
def keepTrack (allowed : Option (Finset String)) (solo_only : Bool) (t : TrackItem) : Bool :=
  if t.id.getD "" = "" then false
  else
    match allowed with
    | none => true
    | some s =>
      if trackArtistIds t ∩ s = ∅ then false
      else if solo_only then decide (trackArtistIds t = s) else true

/-- Whether an item has a truthy track id (`if not track_id: continue`,
line 65). -/
def hasTrackId (t : TrackItem) : Bool := t.id.getD "" ≠ ""

/-- The `Track` record built at lines 75-78: name falls back to
`"Unknown Track"`, the artist display is the comma-join of all credited
artist names with fallback `"Unknown Artist"` when that join is empty, and
the URL falls back to `""`. -/
def mkTrack (t : TrackItem) : Track :=
  { id := t.id.getD ""
    name := t.name.getD "Unknown Track"
    artist :=
      let s := String.intercalate ", " (t.artists.map (fun a => a.name.getD ""))
      if s = "" then "Unknown Artist" else s
    spotify_url := t.spotifyUrl.getD "" }

/-- The items actually visited by a `while results:` pagination loop (lines
62 and 80): the pages are consumed in order, stopping after the first page
whose `next` cursor is falsy (or when the collaborator serves no further
page). -/
def consumePages : List TracksPage → List TrackItem
  | [] => []
  | p :: rest => p.items ++ (if p.hasNext then consumePages rest else [])

/-- `get_album_tracks(sp, album_id, allowed_artist_ids, solo_only, limit)`:
the initial request is issued with page size `min(50, limit)` (line 60), all
reachable pages are consumed, and each item passes the filters of
`keepTrack` before being turned into a `Track`. -/
def get_album_tracks (cat : Catalog) (album_id : String)
    (allowed_artist_ids : Option (Finset String)) (solo_only : Bool) (limit : Nat) :
    List Track :=
  ((consumePages (cat.albumTracks album_id (min 50 limit))).filter
    (keepTrack allowed_artist_ids solo_only)).map mkTrack

/-! ## `build_playlist` (source lines 84-164) -/

/-- The `artist_pool` closure of `build_playlist` (lines 97-108): enumerate
up to `albums_per_artist` albums, harvest each album's tracks restricted to
`allowed_artist_ids={aid}` with the default `limit=50`, shuffle each album's
tracks when `shuffle` is set, keep the first `tracks_per_album` of each, and
finally shuffle the concatenated pool when `shuffle` is set. -/
def artist_pool (cat : Catalog) (sh : List Track → List Track)
    (shuffle solo_only : Bool) (albums_per_artist tracks_per_album : Nat)
    (aid : String) : List Track :=
  let album_ids := get_artist_albums cat aid albums_per_artist
  let pool := album_ids.foldl (fun pool album_id =>
    let tracks := get_album_tracks cat album_id (some {aid}) solo_only 50
    let tracks := if shuffle then sh tracks else tracks
    pool ++ tracks.take tracks_per_album) []
  if shuffle then sh pool else pool

/-- The single-seed-artist branch of `build_playlist` (lines 116-130):
iterate the pool in order, break once `len(playlist) >= target_size`, skip
tracks with a falsy id, skip id- or name-key-duplicates, and append the
rest while recording both dedup keys. -/
def fillSingle (target_size : Int) :
    List Track → Finset String → Finset (String × String) → List Track → List Track
  | [], _, _, playlist => playlist
  | tr :: rest, seen, seenNames, playlist =>
    if target_size ≤ (playlist.length : Int) then playlist
    else if tr.id = "" then fillSingle target_size rest seen seenNames playlist
    else if tr.id ∈ seen ∨ nameKey tr ∈ seenNames then
      fillSingle target_size rest seen seenNames playlist
    else
      fillSingle target_size rest (insert tr.id seen) (insert (nameKey tr) seenNames)
        (playlist ++ [tr])

/-- `math.ceil(a / b)` for Python ints with `b > 0`, as the Euclidean
integer division `(a + b - 1) / b`. -/
def pyCeilDiv (a b : Int) : Int := (a + b - 1) / b

/-- The mutable state of the multi-artist round-robin loop (lines 110-160):
the per-artist pools (consumed destructively via `pop(0)`), the
`contributed` counters, both dedup seen-sets, the playlist built so far, and
the `made_progress` flag. -/
structure RRState where
  pools : String → List Track
  contributed : String → Nat
  seen : Finset String
  seenNames : Finset (String × String)
  playlist : List Track
  progress : Bool

/-- The inner `while pools[aid]:` loop (lines 146-160): pop tracks from the
front of the pool, discarding falsy-id tracks and duplicates, until an
acceptable track is found (returned together with the remaining pool) or the
pool is exhausted. -/
def popFrom (seen : Finset String) (seenNames : Finset (String × String)) :
    List Track → Option Track × List Track
  | [] => (none, [])
  | tr :: rest =>
    if tr.id = "" then popFrom seen seenNames rest
    else if tr.id ∈ seen ∨ nameKey tr ∈ seenNames then popFrom seen seenNames rest
    else (some tr, rest)

/-- One artist's turn in a round-robin sweep (lines 140-160): skip the
artist when the playlist is full (the `break`) or its cap is reached; else
pop from its pool until an acceptable track appears, appending it and
setting the progress flag. -/
def rrTurn (target_size cap : Int) (st : RRState) (aid : String) : RRState :=
  if target_size ≤ (st.playlist.length : Int) then st
  else if cap ≤ (st.contributed aid : Int) then st
  else
    match popFrom st.seen st.seenNames (st.pools aid) with
    | (none, rest) => { st with pools := Function.update st.pools aid rest }
    | (some tr, rest) =>
      { st with
        pools := Function.update st.pools aid rest
        contributed := Function.update st.contributed aid (st.contributed aid + 1)
        seen := insert tr.id st.seen
        seenNames := insert (nameKey tr) st.seenNames
        playlist := st.playlist ++ [tr]
        progress := true }

/-- One full round-robin sweep (`made_progress = False` then the
`for aid in seed_artist_ids` loop, lines 139-160). -/
def rrSweep (target_size cap : Int) (seeds : List String) (st : RRState) : RRState :=
  seeds.foldl (rrTurn target_size cap) { st with progress := false }

/-- The outer `while len(playlist) < target_size and made_progress` loop
(lines 137-160), returning the final state.  Termination: a sweep that sets
the progress flag appended at least one track, and the loop only continues
while the playlist is shorter than `target_size`. -/
def rrLoop (target_size cap : Int) (seeds : List String) (st : RRState) : RRState :=
  if h : (st.playlist.length : Int) < target_size then
    if hp : (rrSweep target_size cap seeds st).progress = true then
      rrLoop target_size cap seeds (rrSweep target_size cap seeds st)
    else rrSweep target_size cap seeds st
  else st
termination_by (target_size - (st.playlist.length : Int)).toNat
decreasing_by
  have hturn : ∀ (s : RRState) (a : String),
      s.playlist.length ≤ (rrTurn target_size cap s a).playlist.length ∧
        ((rrTurn target_size cap s a).progress = true →
          s.progress = true ∨
            s.playlist.length < (rrTurn target_size cap s a).playlist.length) := by
    intro s a
    unfold rrTurn
    split
    · exact ⟨Nat.le_refl _, fun hx => Or.inl hx⟩
    · split
      · exact ⟨Nat.le_refl _, fun hx => Or.inl hx⟩
      · rcases hq : popFrom s.seen s.seenNames (s.pools a) with ⟨otr, rest⟩
        cases otr with
        | none => exact ⟨Nat.le_refl _, fun hx => Or.inl hx⟩
        | some tr => refine ⟨?_, fun _ => Or.inr ?_⟩ <;> simp
  have hfold : ∀ (l : List String) (s : RRState),
      s.playlist.length ≤ (l.foldl (rrTurn target_size cap) s).playlist.length ∧
        ((l.foldl (rrTurn target_size cap) s).progress = true →
          s.progress = true ∨
            s.playlist.length < (l.foldl (rrTurn target_size cap) s).playlist.length) := by
    intro l
    induction l with
    | nil => intro s; exact ⟨Nat.le_refl _, fun hx => Or.inl hx⟩
    | cons a rest ih =>
      intro s
      simp only [List.foldl_cons]
      rcases hturn s a with ⟨h1, h2⟩
      rcases ih (rrTurn target_size cap s a) with ⟨h3, h4⟩
      refine ⟨Nat.le_trans h1 h3, fun hx => ?_⟩
      rcases h4 hx with h5 | h6
      · rcases h2 h5 with h7 | h8
        · exact Or.inl h7
        · exact Or.inr (Nat.lt_of_lt_of_le h8 h3)
      · exact Or.inr (Nat.lt_of_le_of_lt h1 h6)
  have hg : st.playlist.length < (rrSweep target_size cap seeds st).playlist.length := by
    rcases hfold seeds { st with progress := false } with ⟨h1, h2⟩
    unfold rrSweep at hp ⊢
    rcases h2 hp with h5 | h6
    · exact absurd h5 (by simp)
    · simpa using h6
  omega

/-- The multi-seed-artist branch of `build_playlist` (lines 133-160) run
from the freshly built pools: `per_artist_cap = max(1, ceil(target_size /
len(seed_artist_ids)))`, all counters zero, empty seen-sets and playlist. -/
def assembleMulti (pools : String → List Track) (seeds : List String)
    (target_size : Int) : RRState :=
  let cap : Int := max 1 (pyCeilDiv target_size (seeds.length : Int))
  rrLoop target_size cap seeds
    { pools := pools, contributed := fun _ => 0, seen := ∅, seenNames := ∅,
      playlist := [], progress := true }

/-- `build_playlist(sp, seed_artist_ids, target_size, albums_per_artist,
tracks_per_album, shuffle, solo_only)` (lines 84-164): empty seeds give
`[]`; one seed runs the single-artist fill; several seeds run the
round-robin assembly, shuffle the result when `shuffle` is set, and slice to
`target_size`. -/
def build_playlist (cat : Catalog) (sh : List Track → List Track)
    (seed_artist_ids : List String) (target_size : Int)
    (albums_per_artist tracks_per_album : Nat) (shuffle solo_only : Bool) :
    List Track :=
  let pools : String → List Track := fun aid =>
    artist_pool cat sh shuffle solo_only albums_per_artist tracks_per_album aid
  match seed_artist_ids with
  | [] => []
  | [aid] => pySliceTo target_size (fillSingle target_size (pools aid) ∅ ∅ [])
  | a :: b :: rest =>
    let st := assembleMulti pools (a :: b :: rest) target_size
    pySliceTo target_size (if shuffle then sh st.playlist else st.playlist)

/-- The identity permutation, a valid instantiation of the injected random
source. -/
def idShuffle : List Track → List Track := fun l => l

/-- A collaborator that serves no albums and no tracks at all. -/
def emptyCat : Catalog :=
  { artistAlbums := fun _ _ => [], albumTracks := fun _ _ => [] }

/-- A collaborator whose album listing for any artist serves one page with a
single album by artist `"A"` and a truthy `next` cursor. -/
def c7cat : Catalog :=
  { artistAlbums := fun _ _ => [⟨[⟨some "a1", [some "A"]⟩], true⟩]
    albumTracks := fun _ _ => [] }

/-- A collaborator whose track listing for any album serves one page with a
solo track by `"A1"` and a collaboration track by `"A1"` and `"A2"`. -/
def soloCat : Catalog :=
  { artistAlbums := fun _ _ => []
    albumTracks := fun _ _ =>
      [⟨[⟨some "t1", some "Song One", [⟨some "A1", some "Artist A"⟩], none⟩,
         ⟨some "t2", some "Song Two",
          [⟨some "A1", some "Artist A"⟩, ⟨some "A2", some "Artist B"⟩], none⟩],
        false⟩] }

/-- A collaborator serving, for each artist, one album (`"alb-" ++ aid`,
credited to that artist, no further page) holding two tracks credited solely
to the artist obtained by stripping the `"alb-"` tag from the album id. -/
def fullCat : Catalog :=
  { artistAlbums := fun aid _ => [⟨[⟨some ("alb-" ++ aid), [some aid]⟩], false⟩]
    albumTracks := fun alb _ =>
      [⟨[⟨some (alb ++ "-t1"), some (alb ++ " one"),
          [⟨some (alb.drop 4), some ("Artist " ++ alb.drop 4)⟩], none⟩,
         ⟨some (alb ++ "-t2"), some (alb ++ " two"),
          [⟨some (alb.drop 4), some ("Artist " ++ alb.drop 4)⟩], none⟩],
        false⟩] }

/-! ## Helper lemmas -/

theorem pySliceTo_sublist (k : Int) (l : List α) : (pySliceTo k l).Sublist l := by
  unfold pySliceTo
  split <;> exact List.take_sublist _ _

theorem pySliceTo_nil (k : Int) : pySliceTo k ([] : List α) = [] := by
  unfold pySliceTo
  split <;> simp

theorem pySliceTo_length_le (k : Int) (l : List α) (hk : 0 ≤ k) :
    ((pySliceTo k l).length : Int) ≤ k := by
  unfold pySliceTo
  rw [if_pos hk]
  have := List.length_take_le k.toNat l
  omega

/-! ## Claim C10 -/

theorem keepTrack_empty_allowed (solo_only : Bool) (t : TrackItem) :
    keepTrack (some ∅) solo_only t = false := by
  unfold keepTrack
  split
  · rfl
  · simp

/-- Claim C10: for every call to `get_album_tracks` with `allowed_artist_ids`
equal to the empty set, the returned sequence is empty — every track's
artist-id set is disjoint from the empty set, so the intersection filter
rejects every item. -/
theorem claim_C10 (cat : Catalog) (album_id : String) (solo_only : Bool) (limit : Nat) :
    get_album_tracks cat album_id (some ∅) solo_only limit = [] := by
  unfold get_album_tracks
  rw [List.filter_eq_nil_iff.mpr]
  · rfl
  · intro t _
    simp [keepTrack_empty_allowed]

/-! ## Claim C9 -/

theorem keepTrack_none (solo_only : Bool) :
    keepTrack none solo_only = hasTrackId := by
  funext t
  unfold keepTrack hasTrackId
  split
  · rename_i h; simp [h]
  · rename_i h; simp [h]

/-- Claim C9: with `allowed_artist_ids = None` the `solo_only` flag has no
effect on `get_album_tracks`, and every consumed page item that has a truthy
track id is returned. -/
theorem claim_C9 (cat : Catalog) (album_id : String) (solo_only : Bool) (limit : Nat) :
    get_album_tracks cat album_id none solo_only limit =
        get_album_tracks cat album_id none false limit ∧
      get_album_tracks cat album_id none solo_only limit =
        ((consumePages (cat.albumTracks album_id (min 50 limit))).filter
          hasTrackId).map mkTrack := by
  unfold get_album_tracks
  rw [keepTrack_none, keepTrack_none]
  exact ⟨rfl, rfl⟩

/-! ## Claim C5 -/

/-- Claim C5: every track returned by `get_album_tracks` with
`solo_only=true` and a supplied `allowed_artist_ids` set comes from a
consumed page item whose credited-artist-id set is exactly equal to
`allowed_artist_ids`. -/
theorem claim_C5 (cat : Catalog) (album_id : String) (s : Finset String)
    (limit : Nat) (tr : Track)
    (htr : tr ∈ get_album_tracks cat album_id (some s) true limit) :
    ∃ t ∈ consumePages (cat.albumTracks album_id (min 50 limit)),
      trackArtistIds t = s ∧ tr = mkTrack t := by
  unfold get_album_tracks at htr
  rcases List.mem_map.mp htr with ⟨t, ht, htr'⟩
  rcases List.mem_filter.mp ht with ⟨htmem, hkeep⟩
  refine ⟨t, htmem, ?_, htr'.symm⟩
  simp only [keepTrack] at hkeep
  split at hkeep
  · simp at hkeep
  · split at hkeep
    · simp at hkeep
    · simpa using hkeep

/-- Claim C5 witness: with `allowed_artist_ids = {"A1"}` and
`solo_only=true`, the solo track of `soloCat` is returned, the collaboration
track is not, and the returned track's source item is credited exactly to
`{"A1"}`. -/
theorem claim_C5_witness :
    (mkTrack ⟨some "t1", some "Song One", [⟨some "A1", some "Artist A"⟩], none⟩ ∈
        get_album_tracks soloCat "alb" (some {"A1"}) true 50) ∧
      (mkTrack ⟨some "t2", some "Song Two",
          [⟨some "A1", some "Artist A"⟩, ⟨some "A2", some "Artist B"⟩], none⟩ ∉
        get_album_tracks soloCat "alb" (some {"A1"}) true 50) ∧
      ∃ t ∈ consumePages (soloCat.albumTracks "alb" (min 50 50)),
        trackArtistIds t = {"A1"} ∧
          mkTrack ⟨some "t1", some "Song One", [⟨some "A1", some "Artist A"⟩], none⟩ =
            mkTrack t :=
  ⟨by decide, by decide,
    claim_C5 soloCat "alb" {"A1"} 50
      (mkTrack ⟨some "t1", some "Song One", [⟨some "A1", some "Artist A"⟩], none⟩)
      (by decide)⟩

/-! ## Claim C6 -/

theorem acceptAlbums_inv (aid : String) (limit : Nat) (items : List AlbumItem) :
    ∀ (acc : List String) (seen : Finset String),
      acc.length < limit → (∀ x ∈ acc, x ∈ seen) → acc.Nodup →
      (acceptAlbums aid limit items acc seen).1.length ≤ limit ∧
        (∀ x ∈ (acceptAlbums aid limit items acc seen).1,
          x ∈ (acceptAlbums aid limit items acc seen).2) ∧
        (acceptAlbums aid limit items acc seen).1.Nodup := by
  induction items with
  | nil =>
    intro acc seen h1 h2 h3
    simp only [acceptAlbums]
    exact ⟨Nat.le_of_lt h1, h2, h3⟩
  | cons item rest ih =>
    intro acc seen h1 h2 h3
    simp only [acceptAlbums]
    split
    · split
      case h_2 => exact ih acc seen h1 h2 h3
      case h_1 sId hid =>
        by_cases hs : sId ≠ "" ∧ sId ∉ seen
        · rw [if_pos hs]
          have hsub : ∀ x ∈ acc ++ [sId], x ∈ insert sId seen := by
            intro x hx
            rcases List.mem_append.mp hx with hx | hx
            · exact Finset.mem_insert_of_mem (h2 x hx)
            · simp only [List.mem_singleton] at hx
              subst hx
              exact Finset.mem_insert_self _ _
          have hnodup : (acc ++ [sId]).Nodup := by
            refine List.Nodup.append h3 (List.nodup_singleton _) ?_
            intro a ha hb
            simp only [List.mem_singleton] at hb
            subst hb
            exact hs.2 (h2 a ha)
          split
          · rename_i hlim
            refine ⟨?_, hsub, hnodup⟩
            simp only [List.length_append, List.length_singleton]
            omega
          · rename_i hlim
            refine ih (acc ++ [sId]) (insert sId seen) ?_ hsub hnodup
            simp only [List.length_append, List.length_singleton] at hlim ⊢
            omega
        · rw [if_neg hs]
          exact ih acc seen h1 h2 h3
    · exact ih acc seen h1 h2 h3

theorem albumsFetchGo_inv (aid : String) (limit : Nat) (pages : List AlbumsPage) :
    ∀ (acc : List String) (seen : Finset String),
      acc.length < limit → (∀ x ∈ acc, x ∈ seen) → acc.Nodup →
      (albumsFetchGo aid limit pages acc seen).ids.length ≤ limit ∧
        (albumsFetchGo aid limit pages acc seen).ids.Nodup := by
  induction pages with
  | nil =>
    intro acc seen h1 h2 h3
    simp only [albumsFetchGo]
    exact ⟨Nat.le_of_lt h1, h3⟩
  | cons p rest ih =>
    intro acc seen h1 h2 h3
    simp only [albumsFetchGo]
    obtain ⟨ha, hb, hc⟩ := acceptAlbums_inv aid limit p.items acc seen h1 h2 h3
    split
    · rename_i h
      exact ih _ _ h.2 hb hc
    · exact ⟨ha, hc⟩

/-- Claim C6: `get_artist_albums` returns at most `limit` album ids, with no
id repeated, over any paginated catalog response. -/
theorem claim_C6 (cat : Catalog) (artist_id : String) (limit : Nat) :
    (get_artist_albums cat artist_id limit).length ≤ limit ∧
      (get_artist_albums cat artist_id limit).Nodup := by
  unfold get_artist_albums albumsFetch
  simp only
  split
  · rename_i h
    exact albumsFetchGo_inv artist_id limit _ [] ∅ h (by simp) List.nodup_nil
  · simp

/-! ## Claim C7 (corrected) -/

theorem albumsFetchGo_requests_none (aid : String) (limit : Nat) (pages : List AlbumsPage) :
    ∀ (acc : List String) (seen : Finset String),
      ∀ r ∈ (albumsFetchGo aid limit pages acc seen).requests, r.1 = none := by
  induction pages with
  | nil =>
    intro acc seen r hr
    simp [albumsFetchGo] at hr
  | cons p rest ih =>
    intro acc seen r hr
    simp only [albumsFetchGo] at hr
    split at hr
    · rcases List.mem_cons.mp hr with h | h
      · rw [h]
      · exact ih _ _ r h
    · simp at hr

/-- Claim C7 counterexample: on a catalog whose first album page has a
truthy `next` cursor, the second page request is the `sp.next` call, which
carries no page-size parameter at all, so it does not ask for
`min(10, limit - collected_so_far)`. -/
theorem claim_C7_counterexample :
    ¬ ∀ r ∈ (albumsFetch c7cat "A" 2).requests, r.1 = some (min 10 (2 - r.2)) := by
  decide

/-- Claim C7 (amended): only the initial `sp.artist_albums` request carries
a page-size parameter, equal to `min(10, limit)` — the remaining quota at
that moment, since nothing has yet been collected; every later page is
fetched through `sp.next(results)` without any page-size parameter, the
quota being enforced by stopping pagination instead. -/
theorem claim_C7 (cat : Catalog) (artist_id : String) (limit : Nat) :
    (albumsFetch cat artist_id limit).requests.head? =
        some (some (min 10 limit), 0) ∧
      ∀ r ∈ (albumsFetch cat artist_id limit).requests.tail, r.1 = none := by
  constructor
  · rfl
  · intro r hr
    unfold albumsFetch at hr
    simp only [List.tail_cons] at hr
    split at hr
    · exact albumsFetchGo_requests_none artist_id limit _ [] ∅ r hr
    · simp at hr

/-- Claim C7 witness: concrete run on `c7cat` with `limit = 2`: the initial
request asks for page size `min 10 2` with nothing collected, and the
following `sp.next` request carries no page-size parameter. -/
theorem claim_C7_witness :
    (albumsFetch c7cat "A" 2).requests.head? = some (some (min 10 2), 0) ∧
      ((albumsFetch c7cat "A" 2).requests.tail.headD (none, 0)).1 = none :=
  ⟨(claim_C7 c7cat "A" 2).1,
   (claim_C7 c7cat "A" 2).2 ((albumsFetch c7cat "A" 2).requests.tail.headD (none, 0))
     (by decide)⟩

/-! ## Claim C4 -/

theorem fillSingle_stop (target_size : Int) (pool : List Track)
    (seen : Finset String) (seenNames : Finset (String × String))
    (playlist : List Track) (h : target_size ≤ (playlist.length : Int)) :
    fillSingle target_size pool seen seenNames playlist = playlist := by
  cases pool with
  | nil => rfl
  | cons tr rest => simp only [fillSingle, if_pos h]

theorem fillSingle_append (target_size : Int) (pool : List Track) :
    ∀ (seen : Finset String) (seenNames : Finset (String × String))
      (playlist : List Track),
      ∃ l, fillSingle target_size pool seen seenNames playlist = playlist ++ l ∧
        l.Sublist pool := by
  induction pool with
  | nil =>
    intro seen seenNames playlist
    exact ⟨[], by simp [fillSingle], List.nil_sublist _⟩
  | cons tr rest ih =>
    intro seen seenNames playlist
    simp only [fillSingle]
    split
    · exact ⟨[], by simp, List.nil_sublist _⟩
    · split
      · rcases ih seen seenNames playlist with ⟨l, hl, hs⟩
        exact ⟨l, hl, List.Sublist.cons tr hs⟩
      · split
        · rcases ih seen seenNames playlist with ⟨l, hl, hs⟩
          exact ⟨l, hl, List.Sublist.cons tr hs⟩
        · rcases ih (insert tr.id seen) (insert (nameKey tr) seenNames)
            (playlist ++ [tr]) with ⟨l, hl, hs⟩
          refine ⟨tr :: l, ?_, List.Sublist.cons₂ tr hs⟩
          rw [hl, List.append_assoc]
          rfl

/-- Claim C4: with exactly one seed artist, `build_playlist` is the
deduplicating fill of that artist's pool sliced at `target_size`, and the
result is a subsequence of the pool in the pool's own order — the assembler
only deletes entries and truncates, applying no shuffle of its own after the
pool was built. -/
theorem claim_C4 (cat : Catalog) (sh : List Track → List Track) (aid : String)
    (target_size : Int) (albums_per_artist tracks_per_album : Nat)
    (shuffle solo_only : Bool) :
    build_playlist cat sh [aid] target_size albums_per_artist tracks_per_album
        shuffle solo_only =
      pySliceTo target_size
        (fillSingle target_size
          (artist_pool cat sh shuffle solo_only albums_per_artist tracks_per_album aid)
          ∅ ∅ []) ∧
      (build_playlist cat sh [aid] target_size albums_per_artist tracks_per_album
          shuffle solo_only).Sublist
        (artist_pool cat sh shuffle solo_only albums_per_artist tracks_per_album aid) := by
  refine ⟨rfl, ?_⟩
  rcases fillSingle_append target_size
    (artist_pool cat sh shuffle solo_only albums_per_artist tracks_per_album aid)
    ∅ ∅ [] with ⟨l, hl, hs⟩
  have heq : build_playlist cat sh [aid] target_size albums_per_artist
      tracks_per_album shuffle solo_only = pySliceTo target_size l := by
    show pySliceTo target_size
        (fillSingle target_size
          (artist_pool cat sh shuffle solo_only albums_per_artist tracks_per_album aid)
          ∅ ∅ []) = pySliceTo target_size l
    rw [hl]
    rfl
  rw [heq]
  exact List.Sublist.trans (pySliceTo_sublist target_size l) hs

/-! ## Round-robin loop invariants -/

theorem rrTurn_grow (target_size cap : Int) (s : RRState) (a : String) :
    s.playlist.length ≤ (rrTurn target_size cap s a).playlist.length ∧
      ((rrTurn target_size cap s a).progress = true →
        s.progress = true ∨
          s.playlist.length < (rrTurn target_size cap s a).playlist.length) := by
  unfold rrTurn
  split
  · exact ⟨Nat.le_refl _, fun hx => Or.inl hx⟩
  · split
    · exact ⟨Nat.le_refl _, fun hx => Or.inl hx⟩
    · rcases hq : popFrom s.seen s.seenNames (s.pools a) with ⟨otr, rest⟩
      cases otr with
      | none => exact ⟨Nat.le_refl _, fun hx => Or.inl hx⟩
      | some tr => refine ⟨?_, fun _ => Or.inr ?_⟩ <;> simp

theorem rrSweep_grow (target_size cap : Int) (seeds : List String) (st : RRState)
    (hp : (rrSweep target_size cap seeds st).progress = true) :
    st.playlist.length < (rrSweep target_size cap seeds st).playlist.length := by
  have hfold : ∀ (l : List String) (s : RRState),
      s.playlist.length ≤ (l.foldl (rrTurn target_size cap) s).playlist.length ∧
        ((l.foldl (rrTurn target_size cap) s).progress = true →
          s.progress = true ∨
            s.playlist.length < (l.foldl (rrTurn target_size cap) s).playlist.length) := by
    intro l
    induction l with
    | nil => intro s; exact ⟨Nat.le_refl _, fun hx => Or.inl hx⟩
    | cons a rest ih =>
      intro s
      simp only [List.foldl_cons]
      rcases rrTurn_grow target_size cap s a with ⟨h1, h2⟩
      rcases ih (rrTurn target_size cap s a) with ⟨h3, h4⟩
      refine ⟨Nat.le_trans h1 h3, fun hx => ?_⟩
      rcases h4 hx with h5 | h6
      · rcases h2 h5 with h7 | h8
        · exact Or.inl h7
        · exact Or.inr (Nat.lt_of_lt_of_le h8 h3)
      · exact Or.inr (Nat.lt_of_le_of_lt h1 h6)
  rcases hfold seeds { st with progress := false } with ⟨h1, h2⟩
  unfold rrSweep at hp ⊢
  rcases h2 hp with h5 | h6
  · exact absurd h5 (by simp)
  · simpa using h6

theorem rrSweep_preserve (target_size cap : Int) (seeds : List String)
    (P : RRState → Prop)
    (hturn : ∀ st aid, P st → P (rrTurn target_size cap st aid))
    (hflag : ∀ st, P st → P { st with progress := false })
    (st : RRState) (h : P st) : P (rrSweep target_size cap seeds st) := by
  unfold rrSweep
  have hfold : ∀ (l : List String) (s : RRState), P s →
      P (l.foldl (rrTurn target_size cap) s) := by
    intro l
    induction l with
    | nil => intro s hs; exact hs
    | cons a rest ih => intro s hs; exact ih _ (hturn s a hs)
  exact hfold seeds _ (hflag st h)

theorem rrLoop_preserve (target_size cap : Int) (seeds : List String)
    (P : RRState → Prop)
    (hturn : ∀ st aid, P st → P (rrTurn target_size cap st aid))
    (hflag : ∀ st, P st → P { st with progress := false }) :
    ∀ st, P st → P (rrLoop target_size cap seeds st) := by
  suffices H : ∀ (n : Nat) (st : RRState),
      (target_size - (st.playlist.length : Int)).toNat ≤ n → P st →
        P (rrLoop target_size cap seeds st) by
    intro st h
    exact H (target_size - (st.playlist.length : Int)).toNat st (Nat.le_refl _) h
  intro n
  induction n with
  | zero =>
    intro st hm hP
    rw [rrLoop]
    split
    · rename_i hlt
      exfalso
      omega
    · exact hP
  | succ n ih =>
    intro st hm hP
    rw [rrLoop]
    split
    · rename_i hlt
      split
      · rename_i hp
        apply ih
        · have := rrSweep_grow target_size cap seeds st hp
          omega
        · exact rrSweep_preserve target_size cap seeds P hturn hflag st hP
      · exact rrSweep_preserve target_size cap seeds P hturn hflag st hP
    · exact hP

/-! ## Claim C2 -/

theorem popFrom_some (seen : Finset String) (seenNames : Finset (String × String)) :
    ∀ (pool : List Track) (tr : Track) (rest : List Track),
      popFrom seen seenNames pool = (some tr, rest) →
      tr.id ∉ seen ∧ nameKey tr ∉ seenNames := by
  intro pool
  induction pool with
  | nil =>
    intro tr rest h
    simp [popFrom] at h
  | cons t ts ih =>
    intro tr rest h
    simp only [popFrom] at h
    split at h
    · exact ih tr rest h
    · split at h
      · exact ih tr rest h
      · rename_i hdup
        rw [not_or] at hdup
        simp only [Prod.mk.injEq, Option.some.injEq] at h
        obtain ⟨rfl, rfl⟩ := h
        exact hdup

theorem rrTurn_preserve_dedup (target_size cap : Int) (st : RRState) (aid : String)
    (h : st.playlist.Pairwise
        (fun a b => a.id ≠ b.id ∧ nameKey a ≠ nameKey b) ∧
      (∀ tr ∈ st.playlist, tr.id ∈ st.seen) ∧
      (∀ tr ∈ st.playlist, nameKey tr ∈ st.seenNames)) :
    (rrTurn target_size cap st aid).playlist.Pairwise
        (fun a b => a.id ≠ b.id ∧ nameKey a ≠ nameKey b) ∧
      (∀ tr ∈ (rrTurn target_size cap st aid).playlist,
        tr.id ∈ (rrTurn target_size cap st aid).seen) ∧
      (∀ tr ∈ (rrTurn target_size cap st aid).playlist,
        nameKey tr ∈ (rrTurn target_size cap st aid).seenNames) := by
  unfold rrTurn
  split
  · exact h
  · split
    · exact h
    · rcases hq : popFrom st.seen st.seenNames (st.pools aid) with ⟨otr, rest⟩
      cases otr with
      | none => exact h
      | some tr =>
        obtain ⟨hid, hkey⟩ := popFrom_some st.seen st.seenNames (st.pools aid) tr rest hq
        obtain ⟨hpw, hsub1, hsub2⟩ := h
        refine ⟨?_, ?_, ?_⟩ <;> dsimp only
        · rw [List.pairwise_append]
          refine ⟨hpw, List.pairwise_singleton _ _, ?_⟩
          intro a ha b hb
          simp only [List.mem_singleton] at hb
          subst hb
          exact ⟨fun he => hid (he ▸ hsub1 a ha), fun he => hkey (he ▸ hsub2 a ha)⟩
        · intro x hx
          rcases List.mem_append.mp hx with hx | hx
          · exact Finset.mem_insert_of_mem (hsub1 x hx)
          · simp only [List.mem_singleton] at hx
            subst hx
            exact Finset.mem_insert_self _ _
        · intro x hx
          rcases List.mem_append.mp hx with hx | hx
          · exact Finset.mem_insert_of_mem (hsub2 x hx)
          · simp only [List.mem_singleton] at hx
            subst hx
            exact Finset.mem_insert_self _ _

theorem fillSingle_pairwise (target_size : Int) (pool : List Track) :
    ∀ (seen : Finset String) (seenNames : Finset (String × String))
      (acc : List Track),
      acc.Pairwise (fun a b => a.id ≠ b.id ∧ nameKey a ≠ nameKey b) →
      (∀ tr ∈ acc, tr.id ∈ seen) → (∀ tr ∈ acc, nameKey tr ∈ seenNames) →
      (fillSingle target_size pool seen seenNames acc).Pairwise
        (fun a b => a.id ≠ b.id ∧ nameKey a ≠ nameKey b) := by
  induction pool with
  | nil =>
    intro seen seenNames acc h1 h2 h3
    simpa [fillSingle] using h1
  | cons tr rest ih =>
    intro seen seenNames acc h1 h2 h3
    simp only [fillSingle]
    split
    · exact h1
    · split
      · exact ih _ _ _ h1 h2 h3
      · split
        · exact ih _ _ _ h1 h2 h3
        · rename_i hdup
          rw [not_or] at hdup
          apply ih
          · rw [List.pairwise_append]
            refine ⟨h1, List.pairwise_singleton _ _, ?_⟩
            intro a ha b hb
            simp only [List.mem_singleton] at hb
            subst hb
            exact ⟨fun he => hdup.1 (he ▸ h2 a ha), fun he => hdup.2 (he ▸ h3 a ha)⟩
          · intro x hx
            rcases List.mem_append.mp hx with hx | hx
            · exact Finset.mem_insert_of_mem (h2 x hx)
            · simp only [List.mem_singleton] at hx
              subst hx
              exact Finset.mem_insert_self _ _
          · intro x hx
            rcases List.mem_append.mp hx with hx | hx
            · exact Finset.mem_insert_of_mem (h3 x hx)
            · simp only [List.mem_singleton] at hx
              subst hx
              exact Finset.mem_insert_self _ _

/-- Claim C2: no two tracks of any produced playlist share an `id`, and no
two share the normalized `(name, artist)` key; both checks operate in the
single-seed and the multi-seed branch. -/
theorem claim_C2 (cat : Catalog) (sh : List Track → List Track)
    (seed_artist_ids : List String) (target_size : Int)
    (albums_per_artist tracks_per_album : Nat) (shuffle solo_only : Bool)
    (hsh : ∀ l, (sh l).Perm l) :
    (build_playlist cat sh seed_artist_ids target_size albums_per_artist
        tracks_per_album shuffle solo_only).Pairwise
      (fun a b => a.id ≠ b.id ∧ nameKey a ≠ nameKey b) := by
  have hsymm : Symmetric (fun a b : Track => a.id ≠ b.id ∧ nameKey a ≠ nameKey b) :=
    fun a b hab => ⟨hab.1.symm, hab.2.symm⟩
  rcases seed_artist_ids with _ | ⟨a, _ | ⟨b, rest⟩⟩
  · exact List.Pairwise.nil
  · exact List.Pairwise.sublist (pySliceTo_sublist _ _)
      (fillSingle_pairwise target_size
        (artist_pool cat sh shuffle solo_only albums_per_artist tracks_per_album a)
        ∅ ∅ [] List.Pairwise.nil (by simp) (by simp))
  · have hinv := rrLoop_preserve target_size
      (max 1 (pyCeilDiv target_size ((a :: b :: rest).length : Int)))
      (a :: b :: rest)
      (fun st =>
        st.playlist.Pairwise (fun x y => x.id ≠ y.id ∧ nameKey x ≠ nameKey y) ∧
          (∀ tr ∈ st.playlist, tr.id ∈ st.seen) ∧
          (∀ tr ∈ st.playlist, nameKey tr ∈ st.seenNames))
      (fun st aid hst => rrTurn_preserve_dedup target_size _ st aid hst)
      (fun st hst => by exact hst)
      { pools := fun aid =>
          artist_pool cat sh shuffle solo_only albums_per_artist tracks_per_album aid
        contributed := fun _ => 0, seen := ∅, seenNames := ∅,
        playlist := [], progress := true }
      ⟨List.Pairwise.nil, by simp, by simp⟩
    have hpl := hinv.1
    apply List.Pairwise.sublist (pySliceTo_sublist _ _)
    cases shuffle with
    | false => exact hpl
    | true => exact hpl.perm (hsh _).symm (fun hab => ⟨hab.1.symm, hab.2.symm⟩)

/-- Claim C2 witness: concrete multi-seed run on `fullCat` with the identity
random source. -/
theorem claim_C2_witness :
    (build_playlist fullCat idShuffle ["A1", "A2"] 4 10 2 false false).Pairwise
      (fun a b => a.id ≠ b.id ∧ nameKey a ≠ nameKey b) :=
  claim_C2 fullCat idShuffle ["A1", "A2"] 4 10 2 false false
    (fun l => List.Perm.refl l)

/-! ## Claim C8 -/

/-- Claim C8: with `shuffle=false` the output of `build_playlist` does not
depend on the injected random source at all — two runs with identical
arguments but arbitrary (even different) random sources return the same
sequence. -/
theorem claim_C8 (cat : Catalog) (seed_artist_ids : List String)
    (target_size : Int) (albums_per_artist tracks_per_album : Nat)
    (solo_only : Bool) (sh1 sh2 : List Track → List Track) :
    build_playlist cat sh1 seed_artist_ids target_size albums_per_artist
        tracks_per_album false solo_only =
      build_playlist cat sh2 seed_artist_ids target_size albums_per_artist
        tracks_per_album false solo_only := by
  have hpool : ∀ aid,
      artist_pool cat sh1 false solo_only albums_per_artist tracks_per_album aid =
        artist_pool cat sh2 false solo_only albums_per_artist tracks_per_album aid := by
    intro aid
    simp [artist_pool]
  rcases seed_artist_ids with _ | ⟨a, _ | ⟨b, rest⟩⟩
  · rfl
  · simp only [build_playlist]
    rw [hpool a]
  · simp only [build_playlist]
    rw [funext hpool]
    simp

/-! ## Claim C1 (corrected) -/

/-- Claim C1 counterexample: at `target_size = -1` the playlist is empty,
and an empty list does not have length at most `-1`, so the unguarded bound
"length ≤ target_size" fails for negative targets. -/
theorem claim_C1_counterexample :
    ¬ (((build_playlist emptyCat idShuffle ["A"] (-1) 10 2 false
          false).length : Int) ≤ -1) := by
  decide

/-- Claim C1 (amended): the playlist length is at most
`max target_size 0` — i.e. at most `target_size` whenever `target_size` is
nonnegative — and an empty seed list or a `target_size ≤ 0` yields the empty
playlist. -/
theorem claim_C1 (cat : Catalog) (sh : List Track → List Track)
    (seed_artist_ids : List String) (target_size : Int)
    (albums_per_artist tracks_per_album : Nat) (shuffle solo_only : Bool)
    (hsh : ∀ l, (sh l).Perm l) :
    ((build_playlist cat sh seed_artist_ids target_size albums_per_artist
        tracks_per_album shuffle solo_only).length : Int) ≤ max target_size 0 ∧
      (seed_artist_ids = [] →
        build_playlist cat sh seed_artist_ids target_size albums_per_artist
          tracks_per_album shuffle solo_only = []) ∧
      (target_size ≤ 0 →
        build_playlist cat sh seed_artist_ids target_size albums_per_artist
          tracks_per_album shuffle solo_only = []) := by
  have hempty : target_size ≤ 0 →
      build_playlist cat sh seed_artist_ids target_size albums_per_artist
        tracks_per_album shuffle solo_only = [] := by
    intro ht
    rcases seed_artist_ids with _ | ⟨a, _ | ⟨b, rest⟩⟩
    · rfl
    · simp only [build_playlist]
      rw [fillSingle_stop target_size _ _ _ _ (by simpa using ht)]
      exact pySliceTo_nil target_size
    · simp only [build_playlist, assembleMulti]
      rw [rrLoop]
      rw [dif_neg (by simp; omega)]
      have hnil : (if shuffle = true then sh ([] : List Track) else []) = [] := by
        split
        · exact List.Perm.eq_nil (hsh [])
        · rfl
      rw [hnil]
      exact pySliceTo_nil target_size
  refine ⟨?_, fun h => by subst h; rfl, hempty⟩
  rcases le_or_lt 0 target_size with hpos | hneg
  · rcases seed_artist_ids with _ | ⟨a, _ | ⟨b, rest⟩⟩
    · have h0 : ((build_playlist cat sh [] target_size albums_per_artist
          tracks_per_album shuffle solo_only).length : Int) = 0 := rfl
      rw [h0]
      exact le_max_right target_size 0
    · exact le_trans (pySliceTo_length_le target_size _ hpos) (le_max_left _ _)
    · exact le_trans (pySliceTo_length_le target_size _ hpos) (le_max_left _ _)
  · rw [hempty (le_of_lt hneg)]
    simp

/-- Claim C1 witness: concrete runs on `fullCat`: a positive target obeys the
bound, the empty seed list gives `[]`, and a negative target gives `[]`. -/
theorem claim_C1_witness :
    ((build_playlist fullCat idShuffle ["A1"] 3 10 2 false false).length : Int) ≤
        max 3 0 ∧
      build_playlist fullCat idShuffle [] 3 10 2 false false = [] ∧
      build_playlist fullCat idShuffle ["A1"] (-2) 10 2 false false = [] :=
  ⟨(claim_C1 fullCat idShuffle ["A1"] 3 10 2 false false
      (fun l => List.Perm.refl l)).1,
   (claim_C1 fullCat idShuffle [] 3 10 2 false false
      (fun l => List.Perm.refl l)).2.1 rfl,
   (claim_C1 fullCat idShuffle ["A1"] (-2) 10 2 false false
      (fun l => List.Perm.refl l)).2.2 (by decide)⟩

/-! ## Claim C3 (corrected) -/

theorem rrTurn_preserve_contrib (target_size cap : Int) (st : RRState) (aid : String)
    (h : ∀ x, (st.contributed x : Int) ≤ cap) :
    ∀ x, ((rrTurn target_size cap st aid).contributed x : Int) ≤ cap := by
  unfold rrTurn
  split
  · exact h
  · split
    · exact h
    · rename_i hcap
      rcases hq : popFrom st.seen st.seenNames (st.pools aid) with ⟨otr, rest⟩
      cases otr with
      | none => exact h
      | some tr =>
        intro x
        dsimp only
        rw [Function.update_apply]
        split
        · have := h aid
          push_cast
          omega
        · exact h x

/-- Claim C3 counterexample: with two seed artists, `shuffle=false` and
`target_size = -2`, no track is drawn from any pool, yet the claimed cap
`ceil(target_size / artist_count) = -1` is negative, so "contribution count
≤ cap" fails; the code actually uses `max(1, ceil(...))`. -/
theorem claim_C3_counterexample :
    ¬ (((assembleMulti
          (fun a => artist_pool emptyCat idShuffle false false 10 2 a)
          ["A1", "A2"] (-2)).contributed "A1" : Int)
        ≤ pyCeilDiv (-2) ((["A1", "A2"] : List String).length : Int)) := by
  have h0 : (assembleMulti
      (fun a => artist_pool emptyCat idShuffle false false 10 2 a)
      ["A1", "A2"] (-2)).contributed "A1" = 0 := by
    unfold assembleMulti
    rw [rrLoop]
    rw [dif_neg (by simp)]
  rw [h0]
  decide

/-- Claim C3 (amended): with at least two seed artists and `shuffle=false`,
each artist's contribution count is at most the cap the code computes,
`max(1, ceil(target_size / artist_count))`, which coincides with the claimed
`ceil(target_size / artist_count)` whenever `target_size ≥ 1`; the playlist
of the multi-seed branch is the round-robin state's playlist sliced to
`target_size`. -/
theorem claim_C3 (cat : Catalog) (sh : List Track → List Track)
    (seed_artist_ids : List String) (target_size : Int)
    (albums_per_artist tracks_per_album : Nat) (solo_only : Bool)
    (hseeds : 2 ≤ seed_artist_ids.length) :
    (∀ aid,
      ((assembleMulti
          (fun a => artist_pool cat sh false solo_only albums_per_artist
            tracks_per_album a)
          seed_artist_ids target_size).contributed aid : Int)
        ≤ max 1 (pyCeilDiv target_size (seed_artist_ids.length : Int))) ∧
      (1 ≤ target_size →
        max 1 (pyCeilDiv target_size (seed_artist_ids.length : Int)) =
          pyCeilDiv target_size (seed_artist_ids.length : Int)) ∧
      build_playlist cat sh seed_artist_ids target_size albums_per_artist
          tracks_per_album false solo_only =
        pySliceTo target_size
          ((assembleMulti
            (fun a => artist_pool cat sh false solo_only albums_per_artist
              tracks_per_album a)
            seed_artist_ids target_size).playlist) := by
  refine ⟨?_, ?_, ?_⟩
  · have hinv := rrLoop_preserve target_size
      (max 1 (pyCeilDiv target_size (seed_artist_ids.length : Int)))
      seed_artist_ids
      (fun st => ∀ x, (st.contributed x : Int) ≤
        max 1 (pyCeilDiv target_size (seed_artist_ids.length : Int)))
      (fun st aid hst => rrTurn_preserve_contrib target_size _ st aid hst)
      (fun st hst => by exact hst)
      { pools := fun a =>
          artist_pool cat sh false solo_only albums_per_artist tracks_per_album a
        contributed := fun _ => 0, seen := ∅, seenNames := ∅,
        playlist := [], progress := true }
      (fun x => le_trans zero_le_one (le_max_left 1 _))
    exact hinv
  · intro ht
    refine max_eq_right ?_
    unfold pyCeilDiv
    have hn : (0 : Int) < (seed_artist_ids.length : Int) := by
      omega
    rw [Int.le_ediv_iff_mul_le hn]
    omega
  · rcases seed_artist_ids with _ | ⟨a, _ | ⟨b, rest⟩⟩
    · simp at hseeds
    · simp at hseeds
    · simp only [build_playlist]
      simp

/-- Claim C3 witness: concrete multi-seed run on `fullCat` with
`target_size = 4` and two seed artists: the cap is `max 1 (ceil(4/2)) = 2`
and each artist's contribution count is bounded by it. -/
theorem claim_C3_witness :
    ((assembleMulti
        (fun a => artist_pool fullCat idShuffle false false 10 2 a)
        ["A1", "A2"] 4).contributed "A1" : Int)
      ≤ max 1 (pyCeilDiv 4 ((["A1", "A2"] : List String).length : Int)) :=
  (claim_C3 fullCat idShuffle ["A1", "A2"] 4 10 2 false (by decide)).1 "A1"
